import Mathlib

/-!
Shallow embedding of the EVT binary event-log decoder
(src/evt_parser/parser.py and the repair path in src/evt_parser/utils.py).

Byte buffers are modelled as `List Nat` (each element one byte, values < 256
at every point the source produces them).  Python slicing `data[a:b]` is
`pySlice data a b`, which clamps at the ends exactly as Python does.
`struct.unpack("<I", s)` / `int.from_bytes(s, "little")` is `fromLE`,
`int.from_bytes(s, "big")` is `fromBE`, and `n.to_bytes(4, "little")` is
`toLE4`.  Decoded UTF-16LE text is represented as its list of 16-bit code
units (`List Nat`); this keeps the byte-to-text correspondence exact without
modelling Unicode error replacement, which no claim depends on.
-/

/-- Python pySlice `l[a:b]` for non-negative bounds: drop `a`, take `b - a`,
clamping at the end of the list exactly as Python does. -/
def pySlice (l : List Nat) (a b : Nat) : List Nat :=
  (l.drop a).take (b - a)

/-- Little-endian value of a byte list, as in `int.from_bytes(s, "little")`
and `struct.unpack("<I"/"<H", s)`; tolerates fewer bytes than 4, as Python's
`int.from_bytes` does. -/
def fromLE : List Nat → Nat
  | [] => 0
  | b :: rest => b + 256 * fromLE rest

/-- Big-endian value of a byte list, as in `int.from_bytes(s, "big")`. -/
def fromBE (l : List Nat) : Nat :=
  l.foldl (fun acc b => acc * 256 + b) 0

/-- Four-byte little-endian encoding, as in `n.to_bytes(4, "little")`
(the source only applies it to values below 2^32). -/
def toLE4 (n : Nat) : List Nat :=
  [n % 256, n / 256 % 256, n / 256 / 256 % 256, n / 256 / 256 / 256 % 256]

/-- In-place byte write at a file offset, as performed by `f.seek(off)` plus
`f.write(bs)` on a regular file: bytes before `off` kept, zero padding if the
file is shorter than `off`, then `bs`, then the original tail. -/
def writeAt (buf : List Nat) (off : Nat) (bs : List Nat) : List Nat :=
  buf.take off ++ List.replicate (off - buf.length) 0 ++ bs ++ buf.drop (off + bs.length)

/-- Search helper for `findSub`: try positions `i, i+1, ...` for `r` steps. -/
def findSubFrom (data pat : List Nat) (i : Nat) : Nat → Option Nat
  | 0 => none
  | r + 1 =>
    if pySlice data i (i + pat.length) = pat then some i
    else findSubFrom data pat (i + 1) r

/-- Python `data.find(pat, start)`: the least position `p ≥ start` at which
`pat` occurs in full inside `data`, or `none` (Python's `-1`). -/
def findSub (data pat : List Nat) (start : Nat) : Option Nat :=
  findSubFrom data pat start (data.length + 1 - pat.length - start)

/-- One lowercase hex digit, as produced by Python's `bytes.hex()`. -/
def hexDigit (n : Nat) : Char :=
  if n < 10 then Char.ofNat (48 + n) else Char.ofNat (87 + n)

/-- Two lowercase hex digits of one byte. -/
def byteHex (b : Nat) : String :=
  String.mk [hexDigit (b / 16 % 16), hexDigit (b % 16)]

/-- Python `bytes.hex()` of a byte list. -/
def bytesHex (l : List Nat) : String :=
  String.join (l.map byteHex)

/-- `EVT_HEADER_SIZE` from src/evt_parser/parser.py. -/
def EVT_HEADER_SIZE : Nat := 48

/-- `EVENTLOGRECORD_HEADER_SIZE` from src/evt_parser/parser.py. -/
def EVENTLOGRECORD_HEADER_SIZE : Nat := 56

/-- `EVT_SIGNATURE = b"LfLe"` from src/evt_parser/parser.py. -/
def EVT_SIGNATURE : List Nat := [76, 102, 76, 101]

/-- `EVT_EOF_SIGNATURE = bytes.fromhex("11111111222222223333333344444444")`. -/
def EVT_EOF_SIGNATURE : List Nat :=
  [17, 17, 17, 17, 34, 34, 34, 34, 51, 51, 51, 51, 68, 68, 68, 68]

/-- The first four bytes of the EOF signature, `EVT_EOF_SIGNATURE[:4]`. -/
def eofSig4 : List Nat := EVT_EOF_SIGNATURE.take 4

/-- `EVENT_TYPE_MAP.get(raw, f"unknown_{raw}")` from src/evt_parser/parser.py. -/
def event_type_label (n : Nat) : String :=
  if n = 1 then "error"
  else if n = 2 then "warning"
  else if n = 4 then "information"
  else if n = 8 then "audit_success"
  else if n = 16 then "audit_failure"
  else "unknown_" ++ toString n

/-- `_unix_to_datetime` from src/evt_parser/parser.py: `0` maps to `None`,
any other value to the corresponding UTC timestamp.  The timestamp itself is
represented by its epoch-second count; the `except` arm of the source (for
values outside the calendar range) is unreachable for the 32-bit inputs the
parser feeds it, since `datetime.fromtimestamp` accepts all of `0 < t < 2^32`. -/
def unix_to_datetime (t : Nat) : Option Nat :=
  if t = 0 then none else some t

/-- Parsed EVT file header (`EvtHeader` dataclass). -/
structure EvtHeader where
  header_size : Nat
  signature : List Nat
  major_version : Nat
  minor_version : Nat
  start_offset : Nat
  end_offset : Nat
  current_record_number : Nat
  oldest_record_number : Nat
  max_size : Nat
  flags : Nat
  retention : Nat
  header_size_copy : Nat
deriving DecidableEq

/-- Parsed event record (`EventRecord` dataclass).  Text fields carry their
UTF-16 code units. -/
structure EventRecord where
  record_number : Nat
  time_generated : Option Nat
  time_written : Option Nat
  event_id : Nat
  event_type : String
  event_type_raw : Nat
  event_category : Nat
  source : List Nat
  computer_name : List Nat
  user_sid : Option String
  strings : List (List Nat)
  data : Option (List Nat)
  raw_record : List Nat
deriving DecidableEq

/-- Result of parsing an EVT buffer (`ParseResult` dataclass, minus the
filesystem identity and wall-clock duration, which are not functions of the
buffer). -/
structure ParseResult where
  header : EvtHeader
  records : List EventRecord
  total_records : Nat
  valid_records : Nat
  parse_errors : Nat
  errors : List String
deriving DecidableEq

/-- `ParseResult.success` property: at least one valid record, or an empty
(zero-frame) log. -/
def ParseResult.success (r : ParseResult) : Bool :=
  decide (0 < r.valid_records) || decide (r.total_records = 0)

/-- `_parse_header` from src/evt_parser/parser.py: reads the twelve 32-bit
little-endian fields, then fails on a bad signature. -/
def parse_header (data : List Nat) : Except String EvtHeader :=
  if data.length < EVT_HEADER_SIZE then
    .error ("File too small for EVT header: " ++ toString data.length ++ " bytes")
  else
    let header_size := fromLE (pySlice data 0 4)
    let signature := pySlice data 4 8
    let major_version := fromLE (pySlice data 8 12)
    let minor_version := fromLE (pySlice data 12 16)
    let start_offset := fromLE (pySlice data 16 20)
    let end_offset := fromLE (pySlice data 20 24)
    let current_record_number := fromLE (pySlice data 24 28)
    let oldest_record_number := fromLE (pySlice data 28 32)
    let max_size := fromLE (pySlice data 32 36)
    let flags := fromLE (pySlice data 36 40)
    let retention := fromLE (pySlice data 40 44)
    let header_size_copy := fromLE (pySlice data 44 48)
    if signature ≠ EVT_SIGNATURE then
      .error ("Invalid EVT signature: " ++ bytesHex signature)
    else
      .ok {
        header_size := header_size
        signature := signature
        major_version := major_version
        minor_version := minor_version
        start_offset := start_offset
        end_offset := end_offset
        current_record_number := current_record_number
        oldest_record_number := oldest_record_number
        max_size := max_size
        flags := flags
        retention := retention
        header_size_copy := header_size_copy }

/-- Scan loop of `_read_null_terminated_utf16`: starting at `e`, advance in
two-byte steps while below `bound`, stopping at a two-byte zero code unit.
Mirrors `while end < min(offset + max_len, len(data) - 1): ...`. -/
def utf16ScanEnd (data : List Nat) (bound : Nat) (e : Nat) : Nat :=
  if e < bound then
    if data.getD e 0 = 0 ∧ data.getD (e + 1) 0 = 0 then e
    else utf16ScanEnd data bound (e + 2)
  else e
termination_by bound - e
decreasing_by omega

/-- Group a byte list into little-endian 16-bit code units, as the UTF-16LE
decode of an even-length byte string does (a dangling odd byte yields no unit;
the source never produces one because the scan advances two bytes at a time). -/
def toUtf16Units : List Nat → List Nat
  | a :: b :: rest => (a + 256 * b) :: toUtf16Units rest
  | _ => []

/-- `_read_null_terminated_utf16` from src/evt_parser/parser.py: returns the
decoded code units and the offset just past the two-byte terminator. -/
def read_null_terminated_utf16 (data : List Nat) (offset : Nat) (max_len : Nat) :
    List Nat × Nat :=
  let bound := min (offset + max_len) (data.length - 1)
  let e := utf16ScanEnd data bound offset
  (toUtf16Units (pySlice data offset e), e + 2)

/-- `_parse_sid` from src/evt_parser/parser.py.  The `except` arm of the
source is unreachable here: after the length check every read is in bounds. -/
def parse_sid (data : List Nat) : Option String :=
  if data.length < 8 then none
  else
    let revision := data.getD 0 0
    let sub_auth_count := data.getD 1 0
    if data.length < 8 + sub_auth_count * 4 then none
    else
      let id_auth := fromBE (pySlice data 2 8)
      let sub_auths := (List.range sub_auth_count).map
        (fun i => fromLE (pySlice data (8 + i * 4) (8 + i * 4 + 4)))
      some ("S-" ++ toString revision ++ "-" ++ toString id_auth ++ "-" ++
        String.intercalate "-" (sub_auths.map toString))

/-- String loop of `_parse_event_record`: `for _ in range(num_strings)`,
breaking when the position reaches the record size. -/
def read_record_strings (raw : List Nat) (record_size : Nat) :
    Nat → Nat → List (List Nat)
  | 0, _ => []
  | n + 1, str_pos =>
    if str_pos ≥ record_size then []
    else
      let sp := read_null_terminated_utf16 raw str_pos (record_size - str_pos)
      sp.1 :: read_record_strings raw record_size n sp.2

/-- `_parse_event_record` from src/evt_parser/parser.py: returns
`(record?, next_offset, error?)`.  The `try/except` wrapper of the source is
not represented because, after the size checks, every field read is within
`raw_record` and cannot raise. -/
def parse_event_record (data : List Nat) (offset : Nat) :
    Option EventRecord × Nat × Option String :=
  if offset + 8 > data.length then
    (none, offset, some "Insufficient data for record header")
  else
    let record_size := fromLE (pySlice data offset (offset + 4))
    let signature := pySlice data (offset + 4) (offset + 8)
    if signature = eofSig4 then
      (none, offset + 40, none)
    else if signature ≠ EVT_SIGNATURE then
      (none, offset + 4,
        some ("Invalid record signature at offset " ++ toString offset ++ ": " ++
          bytesHex signature))
    else if record_size < EVENTLOGRECORD_HEADER_SIZE ∨ record_size > 65536 then
      (none, offset + 4,
        some ("Invalid record size at offset " ++ toString offset ++ ": " ++
          toString record_size))
    else if offset + record_size > data.length then
      (none, data.length,
        some ("Record extends past end of file at offset " ++ toString offset))
    else
      let raw_record := pySlice data offset (offset + record_size)
      let record_number := fromLE (pySlice raw_record 8 12)
      let time_generated := fromLE (pySlice raw_record 12 16)
      let time_written := fromLE (pySlice raw_record 16 20)
      let event_id_dword := fromLE (pySlice raw_record 20 24)
      let event_id := event_id_dword &&& 0xFFFF
      let event_type_raw := fromLE (pySlice raw_record 24 26)
      let num_strings := fromLE (pySlice raw_record 26 28)
      let event_category := fromLE (pySlice raw_record 28 30)
      let string_offset := fromLE (pySlice raw_record 36 40)
      let user_sid_length := fromLE (pySlice raw_record 40 44)
      let user_sid_offset := fromLE (pySlice raw_record 44 48)
      let data_length := fromLE (pySlice raw_record 48 52)
      let data_offset := fromLE (pySlice raw_record 52 56)
      let sc := read_null_terminated_utf16 raw_record EVENTLOGRECORD_HEADER_SIZE 1024
      let cc := read_null_terminated_utf16 raw_record sc.2 1024
      let user_sid :=
        if user_sid_length > 0 ∧ user_sid_offset > 0 ∧
            user_sid_offset + user_sid_length ≤ record_size then
          parse_sid (pySlice raw_record user_sid_offset (user_sid_offset + user_sid_length))
        else none
      let strings :=
        if num_strings > 0 ∧ string_offset > 0 ∧ string_offset < record_size then
          read_record_strings raw_record record_size num_strings string_offset
        else []
      let event_data :=
        if data_length > 0 ∧ data_offset > 0 ∧ data_offset + data_length ≤ record_size then
          some (pySlice raw_record data_offset (data_offset + data_length))
        else none
      (some {
        record_number := record_number
        time_generated := unix_to_datetime time_generated
        time_written := unix_to_datetime time_written
        event_id := event_id
        event_type := event_type_label event_type_raw
        event_type_raw := event_type_raw
        event_category := event_category
        source := sc.1
        computer_name := cc.1
        user_sid := user_sid
        strings := strings
        data := event_data
        raw_record := raw_record },
        offset + record_size, none)

/-- A found position of `findSubFrom` is at or after the start and carries a
full match of the pattern. -/
theorem findSubFrom_some (data pat : List Nat) :
    ∀ r i p, findSubFrom data pat i r = some p →
      i ≤ p ∧ pySlice data p (p + pat.length) = pat := by
  intro r
  induction r with
  | zero => intro i p h; simp [findSubFrom] at h
  | succ r ih =>
    intro i p h
    rw [findSubFrom] at h
    by_cases hm : pySlice data i (i + pat.length) = pat
    · rw [if_pos hm] at h
      cases h
      exact ⟨Nat.le_refl _, hm⟩
    · rw [if_neg hm] at h
      have := ih (i + 1) p h
      exact ⟨by omega, this.2⟩

/-- A found position of `findSub` is at or after the start and carries a full
match of the pattern. -/
theorem findSub_some (data pat : List Nat) (start p : Nat)
    (h : findSub data pat start = some p) :
    start ≤ p ∧ pySlice data p (p + pat.length) = pat :=
  findSubFrom_some data pat _ start p h

/-- Eager record walk of `parse_evt_file` (src/evt_parser/parser.py lines
376-401): the `while offset < len(data) - 8` loop, carrying the `records`,
`errors` and `record_count` accumulators.  Returns
`(records, record_count, errors)`. -/
def parseLoop (data : List Nat) (offset : Nat) (racc : List EventRecord)
    (eacc : List String) (count : Nat) : List EventRecord × Nat × List String :=
  if h8 : offset + 8 < data.length then
    if pySlice data (offset + 4) (offset + 8) = eofSig4 then
      (racc, count, eacc)
    else if hsig : pySlice data (offset + 4) (offset + 8) ≠ EVT_SIGNATURE then
      match hf : findSub data EVT_SIGNATURE (offset + 4) with
      | none => (racc, count, eacc)
      | some p => parseLoop data (p - 4) racc eacc count
    else
      let t := parse_event_record data offset
      let eacc' := match t.2.2 with
        | some e => eacc ++ [e]
        | none => eacc
      let racc' := match t.1 with
        | some r => racc ++ [r]
        | none => racc
      if hadv : t.2.1 ≤ offset then (racc', count + 1, eacc')
      else parseLoop data t.2.1 racc' eacc' (count + 1)
  else (racc, count, eacc)
termination_by data.length - offset
decreasing_by
  · have hp := findSub_some data EVT_SIGNATURE (offset + 4) p hf
    obtain ⟨hp1, hp2⟩ := hp
    have hne : p ≠ offset + 4 := by
      intro he
      apply hsig
      rw [he] at hp2
      have h44 : offset + 4 + EVT_SIGNATURE.length = offset + 8 := by
        simp [EVT_SIGNATURE]
      rw [h44] at hp2
      exact hp2
    omega
  · have hadv' : ¬ (parse_event_record data offset).2.1 ≤ offset := hadv
    omega

/-- Lazy record walk of `iter_evt_records` (src/evt_parser/parser.py lines
437-454): the identical loop over a read-only view, yielding records and
discarding per-record errors.  Returns the yielded records in order. -/
def iterLoop (data : List Nat) (offset : Nat) : List EventRecord :=
  if h8 : offset + 8 < data.length then
    if pySlice data (offset + 4) (offset + 8) = eofSig4 then []
    else if hsig : pySlice data (offset + 4) (offset + 8) ≠ EVT_SIGNATURE then
      match hf : findSub data EVT_SIGNATURE (offset + 4) with
      | none => []
      | some p => iterLoop data (p - 4)
    else
      let t := parse_event_record data offset
      let rest := if hadv : t.2.1 ≤ offset then [] else iterLoop data t.2.1
      match t.1 with
      | some r => r :: rest
      | none => rest
  else []
termination_by data.length - offset
decreasing_by
  · have hp := findSub_some data EVT_SIGNATURE (offset + 4) p hf
    obtain ⟨hp1, hp2⟩ := hp
    have hne : p ≠ offset + 4 := by
      intro he
      apply hsig
      rw [he] at hp2
      have h44 : offset + 4 + EVT_SIGNATURE.length = offset + 8 := by
        simp [EVT_SIGNATURE]
      rw [h44] at hp2
      exact hp2
    omega
  · have hadv' : ¬ (parse_event_record data offset).2.1 ≤ offset := hadv
    omega

/-- `parse_evt_file` from src/evt_parser/parser.py, as a function of the raw
bytes (the file read and clock are outside the embedding): header decode
followed by the eager record walk from `header.start_offset`. -/
def parse_evt_file (data : List Nat) : Except String ParseResult :=
  if data.length < EVT_HEADER_SIZE then
    .error ("File too small to be valid EVT: " ++ toString data.length ++ " bytes")
  else
    match parse_header data with
    | .error e => .error e
    | .ok header =>
      let t := parseLoop data header.start_offset [] [] 0
      .ok {
        header := header
        records := t.1
        total_records := t.2.1
        valid_records := t.1.length
        parse_errors := t.2.2.length
        errors := t.2.2 }

/-- `iter_evt_records` from src/evt_parser/parser.py, as a function of the raw
bytes: header decode from the first 48 bytes of the memory map, then the lazy
record walk, yielding the record sequence. -/
def iter_evt_records (data : List Nat) : Except String (List EventRecord) :=
  if data.length < EVT_HEADER_SIZE then
    .error ("File too small to be valid EVT: " ++ toString data.length ++ " bytes")
  else
    match parse_header (pySlice data 0 EVT_HEADER_SIZE) with
    | .error e => .error e
    | .ok header => .ok (iterLoop data header.start_offset)

/-- `EVT_FLAGS_OFFSET = 0x24` from src/evt_parser/utils.py. -/
def EVT_FLAGS_OFFSET : Nat := 36

/-- `EOF_RECORD_SIZE = 40` from `repair_dirty_evt`. -/
def EOF_RECORD_SIZE : Nat := 40

/-- `END_OFFSET_LOCATION = 0x14` from `repair_dirty_evt`. -/
def END_OFFSET_LOCATION : Nat := 20

/-- `CURRENT_RECORD_LOCATION = 0x18` from `repair_dirty_evt`. -/
def CURRENT_RECORD_LOCATION : Nat := 24

/-- `OLDEST_RECORD_LOCATION = 0x1C` from `repair_dirty_evt`. -/
def OLDEST_RECORD_LOCATION : Nat := 28

/-- `repair_dirty_evt` from src/evt_parser/utils.py, acting on the copied
buffer contents (the file copy itself is outside the embedding; the function
returns the repaired copy's bytes and, being pure, cannot touch the source
buffer).  `flags & ~EVT_FLAG_DIRTY` is `flags &&& 0xFFFFFFFE`, equal to
Python's result for the 32-bit `flags` values read from four bytes.  The EOF
record start is computed over `Int` as in Python, where `eof_sig_pos - 4` may
in principle go below zero; the written value `eof_record_start + 40` is
always non-negative. -/
def repair_dirty_evt (content : List Nat) : List Nat :=
  let eof_sig_pos := findSub content EVT_EOF_SIGNATURE 0
  let flags := fromLE (pySlice content EVT_FLAGS_OFFSET (EVT_FLAGS_OFFSET + 4))
  let new_flags := flags &&& 0xFFFFFFFE
  let c1 := writeAt content EVT_FLAGS_OFFSET (toLE4 new_flags)
  match eof_sig_pos with
  | none => c1
  | some p =>
    let eof_record_start : Int := (p : Int) - 4
    let correct_end_offset : Int := eof_record_start + EOF_RECORD_SIZE
    let eof_current_record := fromLE (pySlice content (p + 24) (p + 28))
    let eof_oldest_record := fromLE (pySlice content (p + 28) (p + 32))
    let c2 := writeAt c1 END_OFFSET_LOCATION (toLE4 correct_end_offset.toNat)
    let c3 := writeAt c2 CURRENT_RECORD_LOCATION (toLE4 eof_current_record)
    let c4 := writeAt c3 OLDEST_RECORD_LOCATION (toLE4 eof_oldest_record)
    c4

/-- Outcome of `_parse_event_record` when the signature matches but the
declared size is outside `[56, 65536]`. -/
theorem parse_event_record_badsize (data : List Nat) (offset : Nat)
    (h8 : offset + 8 ≤ data.length)
    (hsg : pySlice data (offset + 4) (offset + 8) = EVT_SIGNATURE)
    (hsz : fromLE (pySlice data offset (offset + 4)) < 56 ∨
      65536 < fromLE (pySlice data offset (offset + 4))) :
    parse_event_record data offset =
      (none, offset + 4,
        some ("Invalid record size at offset " ++ toString offset ++ ": " ++
          toString (fromLE (pySlice data offset (offset + 4))))) := by
  unfold parse_event_record
  rw [if_neg (by omega)]
  simp only [hsg]
  rw [if_neg (by decide), if_neg (by simp),
    if_pos (by simpa [EVENTLOGRECORD_HEADER_SIZE] using hsz)]

/-- Outcome of `_parse_event_record` when the signature matches, the size is
in range, but the record would extend past the end of the buffer. -/
theorem parse_event_record_overflow (data : List Nat) (offset : Nat)
    (h8 : offset + 8 ≤ data.length)
    (hsg : pySlice data (offset + 4) (offset + 8) = EVT_SIGNATURE)
    (hsz : 56 ≤ fromLE (pySlice data offset (offset + 4)) ∧
      fromLE (pySlice data offset (offset + 4)) ≤ 65536)
    (hov : data.length < offset + fromLE (pySlice data offset (offset + 4))) :
    parse_event_record data offset =
      (none, data.length,
        some ("Record extends past end of file at offset " ++ toString offset)) := by
  unfold parse_event_record
  rw [if_neg (by omega)]
  simp only [hsg]
  rw [if_neg (by decide), if_neg (by simp),
    if_neg (by simp [EVENTLOGRECORD_HEADER_SIZE]; omega), if_pos (by omega)]

/-- The eager walk stops as soon as fewer than 9 bytes remain past the cursor
(the source condition `offset < len(data) - 8`). -/
theorem parseLoop_exit (data : List Nat) (offset : Nat) (racc : List EventRecord)
    (eacc : List String) (count : Nat) (h : ¬ offset + 8 < data.length) :
    parseLoop data offset racc eacc count = (racc, count, eacc) := by
  rw [parseLoop.eq_def, dif_neg h]

/-- The eager walk stops at an EOF signature. -/
theorem parseLoop_eof (data : List Nat) (offset : Nat) (racc : List EventRecord)
    (eacc : List String) (count : Nat) (h8 : offset + 8 < data.length)
    (heof : pySlice data (offset + 4) (offset + 8) = eofSig4) :
    parseLoop data offset racc eacc count = (racc, count, eacc) := by
  rw [parseLoop.eq_def, dif_pos h8, if_pos heof]

/-- Resynchronization step of the eager walk: an unrecognized signature
triggers a forward search; a hit resumes the walk four bytes before it with
all accumulators untouched, a miss ends the walk with all accumulators
untouched. -/
theorem parseLoop_resync (data : List Nat) (offset : Nat) (racc : List EventRecord)
    (eacc : List String) (count : Nat) (h8 : offset + 8 < data.length)
    (hne : pySlice data (offset + 4) (offset + 8) ≠ eofSig4)
    (hns : pySlice data (offset + 4) (offset + 8) ≠ EVT_SIGNATURE) :
    (∀ p, findSub data EVT_SIGNATURE (offset + 4) = some p →
      parseLoop data offset racc eacc count = parseLoop data (p - 4) racc eacc count) ∧
    (findSub data EVT_SIGNATURE (offset + 4) = none →
      parseLoop data offset racc eacc count = (racc, count, eacc)) := by
  constructor
  · intro p hp
    rw [parseLoop.eq_def, dif_pos h8, if_neg hne, dif_pos hns]
    split
    · rename_i heq
      rw [hp] at heq
      cases heq
    · rename_i p' heq
      rw [hp] at heq
      cases heq
      rfl
  · intro hp
    rw [parseLoop.eq_def, dif_pos h8, if_neg hne, dif_pos hns]
    split
    · rfl
    · rename_i p' heq
      rw [hp] at heq
      cases heq

/-- Record step of the eager walk: with a matching record signature the walk
invokes `parse_event_record`, counts the frame, appends the error (if any) and
the record (if any), and continues at the returned offset unless it failed to
advance. -/
theorem parseLoop_record (data : List Nat) (offset : Nat) (racc : List EventRecord)
    (eacc : List String) (count : Nat) (ro : Option EventRecord) (nxt : Nat)
    (eo : Option String) (h8 : offset + 8 < data.length)
    (hne : pySlice data (offset + 4) (offset + 8) ≠ eofSig4)
    (hsg : pySlice data (offset + 4) (offset + 8) = EVT_SIGNATURE)
    (hper : parse_event_record data offset = (ro, nxt, eo)) :
    parseLoop data offset racc eacc count =
      if nxt ≤ offset then
        ((match ro with | some r => racc ++ [r] | none => racc), count + 1,
          (match eo with | some e => eacc ++ [e] | none => eacc))
      else
        parseLoop data nxt
          (match ro with | some r => racc ++ [r] | none => racc)
          (match eo with | some e => eacc ++ [e] | none => eacc)
          (count + 1) := by
  rw [parseLoop.eq_def, dif_pos h8, if_neg hne, dif_neg (not_not_intro hsg)]
  simp only [hper, dite_eq_ite]
  cases ro <;> cases eo <;> rfl

/-- The lazy walk stops as soon as fewer than 9 bytes remain past the cursor. -/
theorem iterLoop_exit (data : List Nat) (offset : Nat)
    (h : ¬ offset + 8 < data.length) : iterLoop data offset = [] := by
  rw [iterLoop.eq_def, dif_neg h]

/-- The lazy walk stops at an EOF signature. -/
theorem iterLoop_eof (data : List Nat) (offset : Nat) (h8 : offset + 8 < data.length)
    (heof : pySlice data (offset + 4) (offset + 8) = eofSig4) :
    iterLoop data offset = [] := by
  rw [iterLoop.eq_def, dif_pos h8, if_pos heof]

/-- Resynchronization step of the lazy walk. -/
theorem iterLoop_resync (data : List Nat) (offset : Nat) (h8 : offset + 8 < data.length)
    (hne : pySlice data (offset + 4) (offset + 8) ≠ eofSig4)
    (hns : pySlice data (offset + 4) (offset + 8) ≠ EVT_SIGNATURE) :
    (∀ p, findSub data EVT_SIGNATURE (offset + 4) = some p →
      iterLoop data offset = iterLoop data (p - 4)) ∧
    (findSub data EVT_SIGNATURE (offset + 4) = none → iterLoop data offset = []) := by
  constructor
  · intro p hp
    rw [iterLoop.eq_def, dif_pos h8, if_neg hne, dif_pos hns]
    split
    · rename_i heq
      rw [hp] at heq
      cases heq
    · rename_i p' heq
      rw [hp] at heq
      cases heq
      rfl
  · intro hp
    rw [iterLoop.eq_def, dif_pos h8, if_neg hne, dif_pos hns]
    split
    · rfl
    · rename_i p' heq
      rw [hp] at heq
      cases heq

/-- Record step of the lazy walk: yield the record if one was decoded, then
continue at the returned offset unless it failed to advance. -/
theorem iterLoop_record (data : List Nat) (offset : Nat) (ro : Option EventRecord)
    (nxt : Nat) (eo : Option String) (h8 : offset + 8 < data.length)
    (hne : pySlice data (offset + 4) (offset + 8) ≠ eofSig4)
    (hsg : pySlice data (offset + 4) (offset + 8) = EVT_SIGNATURE)
    (hper : parse_event_record data offset = (ro, nxt, eo)) :
    iterLoop data offset =
      (match ro with
        | some r => r :: (if nxt ≤ offset then [] else iterLoop data nxt)
        | none => (if nxt ≤ offset then [] else iterLoop data nxt)) := by
  rw [iterLoop.eq_def, dif_pos h8, if_neg hne, dif_neg (not_not_intro hsg)]
  simp only [hper, dite_eq_ite]
  cases ro <;> rfl

/-- A found record signature strictly after a failed signature check lies at
least five bytes past the cursor. -/
theorem resync_forward (data : List Nat) (offset p : Nat)
    (hns : pySlice data (offset + 4) (offset + 8) ≠ EVT_SIGNATURE)
    (hfind : findSub data EVT_SIGNATURE (offset + 4) = some p) :
    offset + 5 ≤ p := by
  obtain ⟨hge, hm⟩ := findSub_some data EVT_SIGNATURE (offset + 4) p hfind
  by_contra hlt
  have hp4 : p = offset + 4 := by omega
  apply hns
  rw [hp4] at hm
  have hlen : offset + 4 + EVT_SIGNATURE.length = offset + 8 := by
    simp [EVT_SIGNATURE]
  rw [hlen] at hm
  exact hm

/-- The eager walk yields exactly the accumulated records followed by the
records the lazy walk yields from the same cursor. -/
theorem parseLoop_iterLoop_aux (data : List Nat) :
    ∀ n offset racc eacc count, data.length - offset ≤ n →
      (parseLoop data offset racc eacc count).1 = racc ++ iterLoop data offset := by
  intro n
  induction n with
  | zero =>
    intro offset racc eacc count hn
    have h : ¬ offset + 8 < data.length := by omega
    rw [parseLoop_exit data offset racc eacc count h, iterLoop_exit data offset h]
    simp
  | succ n ih =>
    intro offset racc eacc count hn
    by_cases h8 : offset + 8 < data.length
    · by_cases heof : pySlice data (offset + 4) (offset + 8) = eofSig4
      · rw [parseLoop_eof _ _ _ _ _ h8 heof, iterLoop_eof _ _ h8 heof]
        simp
      · by_cases hns : pySlice data (offset + 4) (offset + 8) = EVT_SIGNATURE
        · rcases hper : parse_event_record data offset with ⟨ro, nxt, eo⟩
          rw [parseLoop_record _ _ _ _ _ _ _ _ h8 heof hns hper,
            iterLoop_record _ _ _ _ _ h8 heof hns hper]
          by_cases hadv : nxt ≤ offset
          · rw [if_pos hadv]
            cases ro <;> cases eo <;> simp [hadv]
          · rw [if_neg hadv]
            have hih := ih nxt
              (match ro with | some r => racc ++ [r] | none => racc)
              (match eo with | some e => eacc ++ [e] | none => eacc)
              (count + 1) (by omega)
            rw [hih]
            cases ro <;> simp [hadv]
        · rcases hfind : findSub data EVT_SIGNATURE (offset + 4) with _ | p
          · rw [(parseLoop_resync _ _ _ _ _ h8 heof hns).2 hfind,
              (iterLoop_resync _ _ h8 heof hns).2 hfind]
            simp
          · rw [(parseLoop_resync _ _ _ _ _ h8 heof hns).1 p hfind,
              (iterLoop_resync _ _ h8 heof hns).1 p hfind]
            have hp5 := resync_forward data offset p hns hfind
            exact ih (p - 4) racc eacc count (by omega)
    · rw [parseLoop_exit _ _ _ _ _ h8, iterLoop_exit _ _ h8]
      simp

/-- Count invariant of the eager walk: the records gained never outnumber the
frames counted. -/
theorem parseLoop_count_aux (data : List Nat) :
    ∀ n offset racc eacc count, data.length - offset ≤ n →
      (parseLoop data offset racc eacc count).1.length + count ≤
        (parseLoop data offset racc eacc count).2.1 + racc.length := by
  intro n
  induction n with
  | zero =>
    intro offset racc eacc count hn
    have h : ¬ offset + 8 < data.length := by omega
    rw [parseLoop_exit data offset racc eacc count h]
    show racc.length + count ≤ count + racc.length
    omega
  | succ n ih =>
    intro offset racc eacc count hn
    by_cases h8 : offset + 8 < data.length
    · by_cases heof : pySlice data (offset + 4) (offset + 8) = eofSig4
      · rw [parseLoop_eof _ _ _ _ _ h8 heof]
        show racc.length + count ≤ count + racc.length
        omega
      · by_cases hns : pySlice data (offset + 4) (offset + 8) = EVT_SIGNATURE
        · rcases hper : parse_event_record data offset with ⟨ro, nxt, eo⟩
          rw [parseLoop_record _ _ _ _ _ _ _ _ h8 heof hns hper]
          by_cases hadv : nxt ≤ offset
          · rw [if_pos hadv]
            cases ro <;> cases eo <;> simp <;> omega
          · rw [if_neg hadv]
            have hih := ih nxt
              (match ro with | some r => racc ++ [r] | none => racc)
              (match eo with | some e => eacc ++ [e] | none => eacc)
              (count + 1) (by omega)
            cases ro <;> cases eo <;> simp at hih ⊢ <;> omega
        · rcases hfind : findSub data EVT_SIGNATURE (offset + 4) with _ | p
          · rw [(parseLoop_resync _ _ _ _ _ h8 heof hns).2 hfind]
            show racc.length + count ≤ count + racc.length
            omega
          · rw [(parseLoop_resync _ _ _ _ _ h8 heof hns).1 p hfind]
            have hp5 := resync_forward data offset p hns hfind
            exact ih (p - 4) racc eacc count (by omega)
    · rw [parseLoop_exit _ _ _ _ _ h8]
      show racc.length + count ≤ count + racc.length
      omega

/-- Reading a subrange of the first 48 bytes through the 48-byte prefix view
(the memory-map read `mm[:EVT_HEADER_SIZE]`) gives the same bytes as reading
it from the whole buffer. -/
theorem pySlice_of_take (data : List Nat) (a b n : Nat) (hb : b ≤ n) :
    pySlice (pySlice data 0 n) a b = pySlice data a b := by
  simp only [pySlice, List.drop_zero, Nat.sub_zero, List.drop_take, List.take_take]
  congr 1
  omega

/-- Length of the 48-byte prefix view when the buffer holds at least 48 bytes. -/
theorem pySlice_take_length (data : List Nat) (n : Nat) (h : n ≤ data.length) :
    (pySlice data 0 n).length = n := by
  simp [pySlice]
  omega

/-- Header decode agrees between the whole buffer and its 48-byte prefix view. -/
theorem parse_header_take (data : List Nat) (h : EVT_HEADER_SIZE ≤ data.length) :
    parse_header (pySlice data 0 EVT_HEADER_SIZE) = parse_header data := by
  unfold parse_header
  rw [pySlice_take_length data EVT_HEADER_SIZE h]
  rw [pySlice_of_take data 0 4 EVT_HEADER_SIZE (by decide),
    pySlice_of_take data 4 8 EVT_HEADER_SIZE (by decide),
    pySlice_of_take data 8 12 EVT_HEADER_SIZE (by decide),
    pySlice_of_take data 12 16 EVT_HEADER_SIZE (by decide),
    pySlice_of_take data 16 20 EVT_HEADER_SIZE (by decide),
    pySlice_of_take data 20 24 EVT_HEADER_SIZE (by decide),
    pySlice_of_take data 24 28 EVT_HEADER_SIZE (by decide),
    pySlice_of_take data 28 32 EVT_HEADER_SIZE (by decide),
    pySlice_of_take data 32 36 EVT_HEADER_SIZE (by decide),
    pySlice_of_take data 36 40 EVT_HEADER_SIZE (by decide),
    pySlice_of_take data 40 44 EVT_HEADER_SIZE (by decide),
    pySlice_of_take data 44 48 EVT_HEADER_SIZE (by decide)]
  rw [if_neg (show ¬ EVT_HEADER_SIZE < EVT_HEADER_SIZE by omega),
    if_neg (Nat.not_lt.mpr h)]

/-- C6: for every input buffer, the lazy walking mode yields exactly the same
sequence of decoded records, in the same order, as the records list of the
eager mode on that buffer (and the two modes fail on exactly the same
inputs). -/
theorem evt_c6_lazy_matches_eager (data : List Nat) :
    iter_evt_records data = (parse_evt_file data).map (fun r => r.records) := by
  unfold iter_evt_records parse_evt_file
  by_cases hlen : data.length < EVT_HEADER_SIZE
  · rw [if_pos hlen, if_pos hlen]
    rfl
  · rw [if_neg hlen, if_neg hlen,
      parse_header_take data (Nat.le_of_not_lt hlen)]
    cases hph : parse_header data with
    | error e => rfl
    | ok header =>
      have hrec := parseLoop_iterLoop_aux data data.length header.start_offset
        [] [] 0 (by omega)
      simp only [Except.map]
      rw [hrec]
      simp

/-- C1: every successful eager parse satisfies the counting invariant
`valid_records ≤ total_records` (with `valid_records` the number of emitted
records), and its success flag is true exactly when at least one record was
decoded or no frame at all was encountered. -/
theorem evt_c1_success_invariant (data : List Nat) (r : ParseResult)
    (h : parse_evt_file data = Except.ok r) :
    r.valid_records = r.records.length ∧ r.valid_records ≤ r.total_records ∧
      (r.success = true ↔ 0 < r.valid_records ∨ r.total_records = 0) := by
  unfold parse_evt_file at h
  split at h
  · simp at h
  · split at h
    · simp at h
    · rename_i header hph
      injection h with h'
      subst h'
      have hcnt := parseLoop_count_aux data data.length header.start_offset
        [] [] 0 (by omega)
      refine ⟨rfl, by simpa using hcnt, ?_⟩
      simp [ParseResult.success]

/-- C2: at a frame whose signature matches the record magic but whose declared
32-bit size is below 56 or above 65536, the walker counts the frame, records
the per-position "Invalid record size" error, emits no record, advances the
cursor by exactly 4 bytes, and continues the walk from there. -/
theorem evt_c2_invalid_size (data : List Nat) (offset : Nat)
    (racc : List EventRecord) (eacc : List String) (count : Nat)
    (h8 : offset + 8 < data.length)
    (hsg : pySlice data (offset + 4) (offset + 8) = EVT_SIGNATURE)
    (hsz : fromLE (pySlice data offset (offset + 4)) < 56 ∨
      65536 < fromLE (pySlice data offset (offset + 4))) :
    parseLoop data offset racc eacc count =
      parseLoop data (offset + 4) racc
        (eacc ++ ["Invalid record size at offset " ++ toString offset ++ ": " ++
          toString (fromLE (pySlice data offset (offset + 4)))])
        (count + 1) := by
  have hne : pySlice data (offset + 4) (offset + 8) ≠ eofSig4 := by
    rw [hsg]; decide
  have hper := parse_event_record_badsize data offset (by omega) hsg hsz
  rw [parseLoop_record data offset racc eacc count _ _ _ h8 hne hsg hper]
  rw [if_neg (by omega)]

/-- C3: at a frame whose signature is neither the record magic nor the EOF
marker's first four bytes, the walker searches forward from `cursor + 4` for
the record magic; a hit at position `p` resumes the walk at `p - 4` with no
record emitted and no error recorded for the skipped span, and a miss ends
the walk with the accumulators unchanged (in particular zero records if none
were decoded earlier). -/
theorem evt_c3_resync_skip (data : List Nat) (offset : Nat)
    (racc : List EventRecord) (eacc : List String) (count : Nat)
    (h8 : offset + 8 < data.length)
    (hne : pySlice data (offset + 4) (offset + 8) ≠ eofSig4)
    (hns : pySlice data (offset + 4) (offset + 8) ≠ EVT_SIGNATURE) :
    (∀ p, findSub data EVT_SIGNATURE (offset + 4) = some p →
      parseLoop data offset racc eacc count = parseLoop data (p - 4) racc eacc count) ∧
    (findSub data EVT_SIGNATURE (offset + 4) = none →
      parseLoop data offset racc eacc count = (racc, count, eacc)) :=
  parseLoop_resync data offset racc eacc count h8 hne hns

/-- C4: at a frame with matching magic and in-range declared size whose span
`cursor + size` exceeds the buffer, the walker records the per-position
"extends past end" error, emits no record, still counts the frame, and stops;
the previously emitted records and errors are retained unchanged. -/
theorem evt_c4_overflow_stops (data : List Nat) (offset : Nat)
    (racc : List EventRecord) (eacc : List String) (count : Nat)
    (h8 : offset + 8 < data.length)
    (hsg : pySlice data (offset + 4) (offset + 8) = EVT_SIGNATURE)
    (hsz : 56 ≤ fromLE (pySlice data offset (offset + 4)) ∧
      fromLE (pySlice data offset (offset + 4)) ≤ 65536)
    (hov : data.length < offset + fromLE (pySlice data offset (offset + 4))) :
    parseLoop data offset racc eacc count =
      (racc, count + 1,
        eacc ++ ["Record extends past end of file at offset " ++ toString offset]) := by
  have hne : pySlice data (offset + 4) (offset + 8) ≠ eofSig4 := by
    rw [hsg]; decide
  have hper := parse_event_record_overflow data offset (by omega) hsg hsz hov
  rw [parseLoop_record data offset racc eacc count _ _ _ h8 hne hsg hper]
  rw [if_neg (by omega)]
  rw [parseLoop_exit data data.length _ _ _ (by omega)]

/-- Shape of a successful eager parse: the header decodes and the walk runs
from its start offset with empty accumulators. -/
theorem parse_evt_file_ok (data : List Nat) (hdr : EvtHeader)
    (h48 : ¬ data.length < EVT_HEADER_SIZE)
    (hph : parse_header data = Except.ok hdr) :
    parse_evt_file data = Except.ok {
      header := hdr
      records := (parseLoop data hdr.start_offset [] [] 0).1
      total_records := (parseLoop data hdr.start_offset [] [] 0).2.1
      valid_records := (parseLoop data hdr.start_offset [] [] 0).1.length
      parse_errors := (parseLoop data hdr.start_offset [] [] 0).2.2.length
      errors := (parseLoop data hdr.start_offset [] [] 0).2.2 } := by
  unfold parse_evt_file
  rw [if_neg h48, hph]

/-- A valid-magic buffer of at least 48 bytes always decodes a header, with
the start offset read little-endian from bytes 16..19. -/
theorem parse_header_ok (data : List Nat) (h48 : EVT_HEADER_SIZE ≤ data.length)
    (hsig : pySlice data 4 8 = EVT_SIGNATURE) :
    ∃ hdr, parse_header data = Except.ok hdr ∧
      hdr.start_offset = fromLE (pySlice data 16 20) ∧
      hdr.flags = fromLE (pySlice data 36 40) := by
  unfold parse_header
  rw [if_neg (Nat.not_lt.mpr h48), if_neg (not_not_intro hsig)]
  exact ⟨_, rfl, rfl, rfl⟩

/-- C10: for every buffer of at least 48 bytes with a valid header magic the
eager parse returns normally regardless of the header's start offset; and
whenever that start offset is at least `length - 8`, the outcome has no
records, zero total frames, no errors, and success true. -/
theorem evt_c10_start_offset_safe (data : List Nat)
    (h48 : EVT_HEADER_SIZE ≤ data.length)
    (hsig : pySlice data 4 8 = EVT_SIGNATURE) :
    (∃ r, parse_evt_file data = Except.ok r) ∧
    (∀ r, parse_evt_file data = Except.ok r →
      data.length - 8 ≤ fromLE (pySlice data 16 20) →
      r.records = [] ∧ r.total_records = 0 ∧ r.errors = [] ∧ r.success = true) := by
  obtain ⟨hdr, hph, hso, _⟩ := parse_header_ok data h48 hsig
  have heval := parse_evt_file_ok data hdr (Nat.not_lt.mpr h48) hph
  constructor
  · exact ⟨_, heval⟩
  · intro r hr hstart
    rw [heval] at hr
    injection hr with hr'
    subst hr'
    have hstop : parseLoop data hdr.start_offset [] [] 0 = ([], 0, []) := by
      apply parseLoop_exit
      rw [hso]
      simp only [EVT_HEADER_SIZE] at h48
      omega
    rw [hstop]
    refine ⟨rfl, rfl, rfl, ?_⟩
    simp [ParseResult.success, hstop]

/-- A minimal valid 48-byte header: size fields 48, magic "LfLe", version 1.0,
start offset 48, all remaining fields zero. -/
def validHeader48 : List Nat :=
  [48, 0, 0, 0, 76, 102, 76, 101, 1, 0, 0, 0, 0, 0, 0, 0,
   48, 0, 0, 0, 0, 0, 0, 0, 0, 0, 0, 0, 0, 0, 0, 0,
   0, 0, 0, 0, 0, 0, 0, 0, 0, 0, 0, 0, 48, 0, 0, 0]

/-- A 56-byte buffer: valid header, then a frame at offset 48 whose declared
size is 0 and whose magic matches; the frame's 8-byte prefix ends exactly at
the buffer's last byte. -/
def c9frame : List Nat :=
  validHeader48 ++ [0, 0, 0, 0, 76, 102, 76, 101]

/-- The same buffer with one extra trailing byte, so the frame's prefix ends
one byte before the end. -/
def c9framePlus : List Nat := c9frame ++ [0]

/-- C9 (divergence witness): the source loop condition
`offset < len(data) - 8` skips a frame whose 8-byte prefix ends exactly at the
buffer's last byte — on `c9frame` the bad-size frame at offset 48 is never
examined (zero frames, no error), while with one more trailing byte the very
same frame is examined and reported.  The spec's rule "evaluated while
`cursor + 8 ≤ buffer length`" and the source's own comment "Need at least 8
bytes for record header" would examine the frame in both cases. -/
theorem evt_c9_boundary_frame_skipped :
    (parse_evt_file c9frame).map (fun r => (r.total_records, r.errors)) =
      Except.ok (0, ([] : List String)) ∧
    (parse_evt_file c9framePlus).map (fun r => (r.total_records, r.errors)) =
      Except.ok (1, ["Invalid record size at offset 48: 0"]) := by
  constructor
  · obtain ⟨hdr, hph, hso, _⟩ := parse_header_ok c9frame (by decide) (by decide)
    have heval := parse_evt_file_ok c9frame hdr (by decide) hph
    have hstop : parseLoop c9frame hdr.start_offset [] [] 0 = ([], 0, []) := by
      apply parseLoop_exit
      rw [hso]
      decide
    rw [heval, hstop]
    rfl
  · obtain ⟨hdr, hph, hso, _⟩ := parse_header_ok c9framePlus (by decide) (by decide)
    have heval := parse_evt_file_ok c9framePlus hdr (by decide) hph
    have hso48 : hdr.start_offset = 48 := by rw [hso]; decide
    have hper := parse_event_record_badsize c9framePlus 48 (by decide) (by decide)
      (by decide)
    have hstep := parseLoop_record c9framePlus 48 [] [] 0 _ _ _ (by decide)
      (by decide) (by decide) hper
    rw [if_neg (by decide)] at hstep
    have hstep' : parseLoop c9framePlus 48 [] [] 0 =
        parseLoop c9framePlus 52 [] ["Invalid record size at offset 48: 0"] 1 := by
      rw [hstep]
      rfl
    have hexit := parseLoop_exit c9framePlus 52 []
      ["Invalid record size at offset 48: 0"] 1 (by decide)
    rw [heval, hso48, hstep', hexit]
    rfl

/-- An in-range write leaves the buffer length unchanged. -/
theorem writeAt_length (buf bs : List Nat) (off : Nat)
    (h : off + bs.length ≤ buf.length) :
    (writeAt buf off bs).length = buf.length := by
  simp [writeAt]
  omega

/-- A slice that lies inside the left part of an append ignores the right part. -/
theorem pySlice_append_left (l1 l2 : List Nat) (a b : Nat) (hb : b ≤ l1.length) :
    pySlice (l1 ++ l2) a b = pySlice l1 a b := by
  rw [pySlice, pySlice, List.drop_append_eq_append_drop,
    List.take_append_eq_append_take]
  by_cases hab : a ≤ l1.length
  · have hlen : (l1.drop a).length = l1.length - a := by simp
    have hz : b - a - (l1.drop a).length = 0 := by rw [hlen]; omega
    rw [hz, List.take_zero, List.append_nil]
  · have hz : b - a = 0 := by omega
    rw [hz]
    simp

/-- A slice below `n` reads the same bytes through a `take n` prefix view. -/
theorem pySlice_take_eq (l : List Nat) (a b n : Nat) (hb : b ≤ n) :
    pySlice (l.take n) a b = pySlice l a b := by
  rw [pySlice, pySlice, List.drop_take, List.take_take]
  congr 1
  omega

/-- Reading back exactly the written range returns the written bytes. -/
theorem pySlice_writeAt_self (buf bs : List Nat) (off : Nat)
    (h : off + bs.length ≤ buf.length) :
    pySlice (writeAt buf off bs) off (off + bs.length) = bs := by
  have hpad : List.replicate (off - buf.length) (0 : Nat) = [] := by
    have hz : off - buf.length = 0 := by omega
    rw [hz]
    rfl
  have hT : (buf.take off).length = off := by
    simp
    omega
  rw [pySlice, writeAt, hpad, List.append_nil, List.append_assoc,
    List.drop_left' hT]
  have hlen : off + bs.length - off = bs.length := by omega
  rw [hlen, List.take_left]

/-- A write strictly after the read range does not affect it. -/
theorem pySlice_writeAt_before (buf bs : List Nat) (off a b : Nat)
    (hb : b ≤ off) (h : off + bs.length ≤ buf.length) :
    pySlice (writeAt buf off bs) a b = pySlice buf a b := by
  have hpad : List.replicate (off - buf.length) (0 : Nat) = [] := by
    have hz : off - buf.length = 0 := by omega
    rw [hz]
    rfl
  rw [writeAt, hpad, List.append_nil]
  rw [pySlice_append_left _ _ _ _ (by simp; omega)]
  rw [pySlice_append_left _ _ _ _ (by simp; omega)]
  exact pySlice_take_eq buf a b off hb

/-- A write strictly before the read range does not affect it. -/
theorem pySlice_writeAt_after (buf bs : List Nat) (off a b : Nat)
    (ha : off + bs.length ≤ a) (h : off + bs.length ≤ buf.length) :
    pySlice (writeAt buf off bs) a b = pySlice buf a b := by
  have hpad : List.replicate (off - buf.length) (0 : Nat) = [] := by
    have hz : off - buf.length = 0 := by omega
    rw [hz]
    rfl
  have hTB : ((buf.take off) ++ bs).length = off + bs.length := by
    simp
    omega
  rw [pySlice, pySlice, writeAt, hpad, List.append_nil]
  rw [List.drop_append_eq_append_drop]
  rw [List.drop_eq_nil_of_le (by rw [hTB]; exact ha), List.nil_append, hTB,
    List.drop_drop]
  congr 2
  omega

/-- Round-trip of the 4-byte little-endian encoding. -/
theorem fromLE_toLE4 (n : Nat) : fromLE (toLE4 n) = n % 2 ^ 32 := by
  simp [toLE4, fromLE]
  omega

/-- A little-endian read of genuine bytes is bounded by 256 to their count. -/
theorem fromLE_lt_pow (l : List Nat) (hb : ∀ x ∈ l, x < 256) :
    fromLE l < 256 ^ l.length := by
  induction l with
  | nil => simp [fromLE]
  | cons b rest ih =>
    have hb' : b < 256 := hb b (by simp)
    have hrest : fromLE rest < 256 ^ rest.length :=
      ih (fun x hx => hb x (by simp [hx]))
    simp only [fromLE, List.length_cons]
    have : 256 ^ (rest.length + 1) = 256 * 256 ^ rest.length := by ring
    rw [this]
    omega

/-- A 4-byte (or shorter) little-endian read of genuine bytes fits 32 bits. -/
theorem fromLE_pySlice_lt (l : List Nat) (a b : Nat) (hb : b - a ≤ 4)
    (hl : ∀ x ∈ l, x < 256) : fromLE (pySlice l a b) < 2 ^ 32 := by
  have hmem : ∀ x ∈ pySlice l a b, x < 256 := by
    intro x hx
    rw [pySlice] at hx
    exact hl x (List.mem_of_mem_drop (List.mem_of_mem_take hx))
  have hlen : (pySlice l a b).length ≤ 4 := by
    simp [pySlice]
    omega
  have := fromLE_lt_pow (pySlice l a b) hmem
  calc fromLE (pySlice l a b) < 256 ^ (pySlice l a b).length := this
    _ ≤ 256 ^ 4 := Nat.pow_le_pow_right (by omega) hlen
    _ ≤ 2 ^ 32 := by norm_num

/-- Clearing the dirty bit via the 32-bit mask indeed zeroes bit 0. -/
theorem mask_clears_bit0 (x : Nat) : (x &&& 0xFFFFFFFE) &&& 1 = 0 := by
  rw [Nat.and_assoc]
  norm_num

/-- Shape of the repair on a buffer containing the EOF pattern: the dirty-flag
write followed by the three header-field writes. -/
theorem repair_dirty_evt_found (content : List Nat) (p : Nat)
    (hfind : findSub content EVT_EOF_SIGNATURE 0 = some p) :
    repair_dirty_evt content =
      writeAt
        (writeAt
          (writeAt
            (writeAt content 36
              (toLE4 (fromLE (pySlice content 36 40) &&& 0xFFFFFFFE)))
            20 (toLE4 (((p : Int) - 4 + 40).toNat)))
          24 (toLE4 (fromLE (pySlice content (p + 24) (p + 28)))))
        28 (toLE4 (fromLE (pySlice content (p + 28) (p + 32)))) := by
  unfold repair_dirty_evt
  simp only [hfind, EVT_FLAGS_OFFSET, END_OFFSET_LOCATION, CURRENT_RECORD_LOCATION,
    OLDEST_RECORD_LOCATION, EOF_RECORD_SIZE]
  norm_num

/-- Shape of the repair on a buffer without the EOF pattern: only the
dirty-flag write. -/
theorem repair_dirty_evt_notfound (content : List Nat)
    (hfind : findSub content EVT_EOF_SIGNATURE 0 = none) :
    repair_dirty_evt content =
      writeAt content 36
        (toLE4 (fromLE (pySlice content 36 40) &&& 0xFFFFFFFE)) := by
  unfold repair_dirty_evt
  simp only [hfind, EVT_FLAGS_OFFSET]

/-- The 4-byte little-endian encoding always has four bytes. -/
theorem toLE4_length (n : Nat) : (toLE4 n).length = 4 := rfl

/-- C5: the repair produces a copy whose flags field is the original with
bit 0 (the dirty bit) cleared, whether or not the EOF pattern was found; and
when the 16-byte EOF pattern is found at position `p`, the copy's header
end-offset field holds `(p - 4) + 40` computed over the integers, i.e.
`p + 36`, and its current/oldest record-number fields hold the little-endian
values at `p + 24` and `p + 28` of the source.  The source buffer is a pure
input of the embedding, so the operation cannot change its bytes. -/
theorem evt_c5_repair (content : List Nat)
    (h48 : EVT_HEADER_SIZE ≤ content.length)
    (hbytes : ∀ x ∈ content, x < 256) :
    (fromLE (pySlice (repair_dirty_evt content) 36 40) =
        fromLE (pySlice content 36 40) &&& 0xFFFFFFFE ∧
      fromLE (pySlice (repair_dirty_evt content) 36 40) &&& 1 = 0) ∧
    (∀ p, findSub content EVT_EOF_SIGNATURE 0 = some p → p + 36 < 2 ^ 32 →
      fromLE (pySlice (repair_dirty_evt content) 20 24) = p + 36 ∧
      fromLE (pySlice (repair_dirty_evt content) 24 28) =
        fromLE (pySlice content (p + 24) (p + 28)) ∧
      fromLE (pySlice (repair_dirty_evt content) 28 32) =
        fromLE (pySlice content (p + 28) (p + 32))) := by
  simp only [EVT_HEADER_SIZE] at h48
  have hF : fromLE (pySlice content 36 40) &&& 0xFFFFFFFE < 2 ^ 32 := by
    have := Nat.and_le_right (n := fromLE (pySlice content 36 40)) (m := 0xFFFFFFFE)
    omega
  have hself1 : pySlice (writeAt content 36
        (toLE4 (fromLE (pySlice content 36 40) &&& 0xFFFFFFFE))) 36 40 =
      toLE4 (fromLE (pySlice content 36 40) &&& 0xFFFFFFFE) := by
    have hs := pySlice_writeAt_self content
      (toLE4 (fromLE (pySlice content 36 40) &&& 0xFFFFFFFE)) 36
      (by rw [toLE4_length]; omega)
    rw [toLE4_length] at hs
    norm_num at hs
    exact hs
  have hL1 : (writeAt content 36
      (toLE4 (fromLE (pySlice content 36 40) &&& 0xFFFFFFFE))).length =
      content.length :=
    writeAt_length _ _ _ (by rw [toLE4_length]; omega)
  constructor
  · rcases hfind : findSub content EVT_EOF_SIGNATURE 0 with _ | p
    · rw [repair_dirty_evt_notfound content hfind]
      rw [hself1, fromLE_toLE4, Nat.mod_eq_of_lt hF]
      exact ⟨rfl, mask_clears_bit0 _⟩
    · rw [repair_dirty_evt_found content p hfind]
      have hL2 : (writeAt (writeAt content 36
          (toLE4 (fromLE (pySlice content 36 40) &&& 0xFFFFFFFE)))
          20 (toLE4 (((p : Int) - 4 + 40).toNat))).length = content.length := by
        rw [writeAt_length _ _ _ (by rw [toLE4_length, hL1]; omega), hL1]
      rw [pySlice_writeAt_after _ _ 28 36 40 (by rw [toLE4_length]; omega)
        (by rw [toLE4_length]
            have hL3 : (writeAt (writeAt (writeAt content 36
                (toLE4 (fromLE (pySlice content 36 40) &&& 0xFFFFFFFE)))
                20 (toLE4 (((p : Int) - 4 + 40).toNat)))
                24 (toLE4 (fromLE (pySlice content (p + 24) (p + 28))))).length =
                content.length := by
              rw [writeAt_length _ _ _ (by rw [toLE4_length, hL2]; omega), hL2]
            rw [hL3]
            omega)]
      rw [pySlice_writeAt_after _ _ 24 36 40 (by rw [toLE4_length]; omega)
        (by rw [toLE4_length, hL2]; omega)]
      rw [pySlice_writeAt_after _ _ 20 36 40 (by rw [toLE4_length]; omega)
        (by rw [toLE4_length, hL1]; omega)]
      rw [hself1, fromLE_toLE4, Nat.mod_eq_of_lt hF]
      exact ⟨rfl, mask_clears_bit0 _⟩
  · intro p hfind hp32
    rw [repair_dirty_evt_found content p hfind]
    have hL2 : (writeAt (writeAt content 36
        (toLE4 (fromLE (pySlice content 36 40) &&& 0xFFFFFFFE)))
        20 (toLE4 (((p : Int) - 4 + 40).toNat))).length = content.length := by
      rw [writeAt_length _ _ _ (by rw [toLE4_length, hL1]; omega), hL1]
    have hL3 : (writeAt (writeAt (writeAt content 36
        (toLE4 (fromLE (pySlice content 36 40) &&& 0xFFFFFFFE)))
        20 (toLE4 (((p : Int) - 4 + 40).toNat)))
        24 (toLE4 (fromLE (pySlice content (p + 24) (p + 28))))).length =
        content.length := by
      rw [writeAt_length _ _ _ (by rw [toLE4_length, hL2]; omega), hL2]
    have hendv : (((p : Int) - 4 + 40).toNat) = p + 36 := by omega
    refine ⟨?_, ?_, ?_⟩
    · rw [pySlice_writeAt_before _ _ 28 20 24 (by omega)
        (by rw [toLE4_length, hL3]; omega)]
      rw [pySlice_writeAt_before _ _ 24 20 24 (by omega)
        (by rw [toLE4_length, hL2]; omega)]
      have hs := pySlice_writeAt_self (writeAt content 36
          (toLE4 (fromLE (pySlice content 36 40) &&& 0xFFFFFFFE)))
        (toLE4 (((p : Int) - 4 + 40).toNat)) 20
        (by rw [toLE4_length, hL1]; omega)
      rw [toLE4_length] at hs
      norm_num at hs
      rw [hs, fromLE_toLE4, hendv, Nat.mod_eq_of_lt hp32]
    · rw [pySlice_writeAt_before _ _ 28 24 28 (by omega)
        (by rw [toLE4_length, hL3]; omega)]
      have hs := pySlice_writeAt_self (writeAt (writeAt content 36
            (toLE4 (fromLE (pySlice content 36 40) &&& 0xFFFFFFFE)))
          20 (toLE4 (((p : Int) - 4 + 40).toNat)))
        (toLE4 (fromLE (pySlice content (p + 24) (p + 28)))) 24
        (by rw [toLE4_length, hL2]; omega)
      rw [toLE4_length] at hs
      norm_num at hs
      rw [hs, fromLE_toLE4,
        Nat.mod_eq_of_lt (fromLE_pySlice_lt content (p + 24) (p + 28) (by omega) hbytes)]
    · have hs := pySlice_writeAt_self (writeAt (writeAt (writeAt content 36
            (toLE4 (fromLE (pySlice content 36 40) &&& 0xFFFFFFFE)))
          20 (toLE4 (((p : Int) - 4 + 40).toNat)))
          24 (toLE4 (fromLE (pySlice content (p + 24) (p + 28)))))
        (toLE4 (fromLE (pySlice content (p + 28) (p + 32)))) 28
        (by rw [toLE4_length, hL3]; omega)
      rw [toLE4_length] at hs
      norm_num at hs
      rw [hs, fromLE_toLE4,
        Nat.mod_eq_of_lt (fromLE_pySlice_lt content (p + 28) (p + 32) (by omega) hbytes)]

/-- The scan end never moves backwards. -/
theorem utf16ScanEnd_ge (data : List Nat) (bound : Nat) :
    ∀ n e, bound - e ≤ n → e ≤ utf16ScanEnd data bound e := by
  intro n
  induction n with
  | zero =>
    intro e hn
    rw [utf16ScanEnd.eq_def, if_neg (by omega)]
  | succ n ih =>
    intro e hn
    rw [utf16ScanEnd.eq_def]
    by_cases he : e < bound
    · rw [if_pos he]
      by_cases ht : data.getD e 0 = 0 ∧ data.getD (e + 1) 0 = 0
      · rw [if_pos ht]
      · rw [if_neg ht]
        have := ih (e + 2) (by omega)
        omega
    · rw [if_neg he]

/-- The scan end never passes one byte beyond the bound (unless it started
there). -/
theorem utf16ScanEnd_le (data : List Nat) (bound : Nat) :
    ∀ n e, bound - e ≤ n → utf16ScanEnd data bound e ≤ max e (bound + 1) := by
  intro n
  induction n with
  | zero =>
    intro e hn
    rw [utf16ScanEnd.eq_def, if_neg (by omega)]
    exact le_max_left _ _
  | succ n ih =>
    intro e hn
    rw [utf16ScanEnd.eq_def]
    by_cases he : e < bound
    · rw [if_pos he]
      by_cases ht : data.getD e 0 = 0 ∧ data.getD (e + 1) 0 = 0
      · rw [if_pos ht]
        exact le_max_left _ _
      · rw [if_neg ht]
        have h1 := ih (e + 2) (by omega)
        rcases le_max_iff.mp h1 with h2 | h2
        · exact le_max_iff.mpr (Or.inr (by omega))
        · exact le_max_iff.mpr (Or.inr h2)
    · rw [if_neg he]
      exact le_max_left _ _

/-- The scan advances by an even number of bytes. -/
theorem utf16ScanEnd_even (data : List Nat) (bound : Nat) :
    ∀ n e, bound - e ≤ n → (utf16ScanEnd data bound e - e) % 2 = 0 := by
  intro n
  induction n with
  | zero =>
    intro e hn
    rw [utf16ScanEnd.eq_def, if_neg (by omega)]
    simp
  | succ n ih =>
    intro e hn
    rw [utf16ScanEnd.eq_def]
    by_cases he : e < bound
    · rw [if_pos he]
      by_cases ht : data.getD e 0 = 0 ∧ data.getD (e + 1) 0 = 0
      · rw [if_pos ht]
        simp
      · rw [if_neg ht]
        have h1 := ih (e + 2) (by omega)
        have h2 := utf16ScanEnd_ge data bound (bound - (e + 2)) (e + 2) (le_refl _)
        omega
    · rw [if_neg he]
      simp

/-- No aligned position strictly before the scan end holds a two-byte zero
code unit: the scan stops at the first one. -/
theorem utf16ScanEnd_first (data : List Nat) (bound : Nat) :
    ∀ n e, bound - e ≤ n → ∀ i, e ≤ i → i < utf16ScanEnd data bound e →
      (i - e) % 2 = 0 → ¬(data.getD i 0 = 0 ∧ data.getD (i + 1) 0 = 0) := by
  intro n
  induction n with
  | zero =>
    intro e hn i hei hi
    rw [utf16ScanEnd.eq_def, if_neg (by omega)] at hi
    omega
  | succ n ih =>
    intro e hn i hei hi hpar
    rw [utf16ScanEnd.eq_def] at hi
    by_cases he : e < bound
    · rw [if_pos he] at hi
      by_cases ht : data.getD e 0 = 0 ∧ data.getD (e + 1) 0 = 0
      · rw [if_pos ht] at hi
        omega
      · rw [if_neg ht] at hi
        by_cases hie : i = e
        · rw [hie]
          exact ht
        · exact ih (e + 2) (by omega) i (by omega) hi (by omega)
    · rw [if_neg he] at hi
      omega

/-- On data with no two-byte zero unit below the bound, an aligned scan runs
to exactly the bound. -/
theorem utf16ScanEnd_noterm (data : List Nat) (bound : Nat)
    (hnt : ∀ i, i < bound → ¬(data.getD i 0 = 0 ∧ data.getD (i + 1) 0 = 0)) :
    ∀ k e, e + 2 * k = bound → utf16ScanEnd data bound e = bound := by
  intro k
  induction k with
  | zero =>
    intro e he
    rw [utf16ScanEnd.eq_def, if_neg (by omega)]
    omega
  | succ k ih =>
    intro e he
    rw [utf16ScanEnd.eq_def, if_pos (by omega), if_neg (hnt e (by omega))]
    exact ih (e + 2) (by omega)

/-- Bytes of the UTF-16LE string "abc" followed by a two-byte zero code unit. -/
def abcUtf16 : List Nat := [97, 0, 98, 0, 99, 0, 0, 0]

/-- Two code units consume at most the scanned bytes plus an odd leftover. -/
theorem toUtf16Units_length_le (l : List Nat) :
    2 * (toUtf16Units l).length ≤ l.length + 1 := by
  induction l using toUtf16Units.induct with
  | case1 a b rest ih =>
    simp only [toUtf16Units, List.length_cons]
    omega
  | case2 l h =>
    rw [toUtf16Units.eq_def]
    split
    · rename_i a b rest
      exact absurd rfl (h a b rest)
    · simp

/-- C7 (amended): the null-terminated UTF-16LE scan stops at the first
two-byte zero code unit or after a hard cap of 1024 bytes, i.e. 512 UTF-16
code units (not 1024 code units); on "abc" followed by a zero unit it returns
the units of "abc" and the offset just past the terminator. -/
theorem evt_c7_utf16_scan :
    read_null_terminated_utf16 abcUtf16 0 1024 = ([97, 98, 99], 8) ∧
    (∀ data offset, (read_null_terminated_utf16 data offset 1024).1.length ≤ 512) ∧
    (∀ data offset i, offset ≤ i →
      i + 2 < (read_null_terminated_utf16 data offset 1024).2 →
      (i - offset) % 2 = 0 →
      ¬(data.getD i 0 = 0 ∧ data.getD (i + 1) 0 = 0)) := by
  refine ⟨?_, ?_, ?_⟩
  · have hb : min (0 + 1024) (abcUtf16.length - 1) = 7 := by decide
    have hscan : utf16ScanEnd abcUtf16 7 0 = 6 := by
      rw [utf16ScanEnd.eq_def, if_pos (by decide), if_neg (by decide)]
      rw [utf16ScanEnd.eq_def, if_pos (by decide), if_neg (by decide)]
      rw [utf16ScanEnd.eq_def, if_pos (by decide), if_neg (by decide)]
      rw [utf16ScanEnd.eq_def, if_pos (by decide), if_pos (by decide)]
    unfold read_null_terminated_utf16
    simp only [hb, hscan]
    decide
  · intro data offset
    have hle := utf16ScanEnd_le data (min (offset + 1024) (data.length - 1))
      (min (offset + 1024) (data.length - 1) - offset) offset (le_refl _)
    have heven := utf16ScanEnd_even data (min (offset + 1024) (data.length - 1))
      (min (offset + 1024) (data.length - 1) - offset) offset (le_refl _)
    have hge := utf16ScanEnd_ge data (min (offset + 1024) (data.length - 1))
      (min (offset + 1024) (data.length - 1) - offset) offset (le_refl _)
    have hmin : min (offset + 1024) (data.length - 1) ≤ offset + 1024 :=
      min_le_left _ _
    rcases le_max_iff.mp hle with hcase | hcase
    all_goals {
      unfold read_null_terminated_utf16
      have hunits := toUtf16Units_length_le
        (pySlice data offset (utf16ScanEnd data (min (offset + 1024) (data.length - 1)) offset))
      have hslice : (pySlice data offset
          (utf16ScanEnd data (min (offset + 1024) (data.length - 1)) offset)).length ≤
          utf16ScanEnd data (min (offset + 1024) (data.length - 1)) offset - offset := by
        simp only [pySlice, List.length_take, List.length_drop]
        omega
      simp only []
      omega
    }
  · intro data offset i hoi hlt hpar
    unfold read_null_terminated_utf16 at hlt
    simp only [] at hlt
    exact utf16ScanEnd_first data (min (offset + 1024) (data.length - 1))
      (min (offset + 1024) (data.length - 1) - offset) offset (le_refl _) i hoi
      (by omega) hpar

/-- Grouping an even run of identical bytes yields exactly half as many code
units. -/
theorem toUtf16Units_replicate_one :
    ∀ n, (toUtf16Units (List.replicate (2 * n) 1)).length = n := by
  intro n
  induction n with
  | zero => rfl
  | succ n ih =>
    have h2 : 2 * (n + 1) = (2 * n) + 1 + 1 := by omega
    rw [h2, List.replicate_succ, List.replicate_succ]
    simp only [toUtf16Units, List.length_cons]
    omega

/-- C7 (counterexample to the stated cap): on 2050 bytes of `0x01` — more
than 1024 code units of data with no zero unit — the scan returns 512 code
units, not the 1024 the claimed per-unit cap would give. -/
theorem evt_c7_cap_counterexample :
    (read_null_terminated_utf16 (List.replicate 2050 1) 0 1024).1.length = 512 ∧
    (read_null_terminated_utf16 (List.replicate 2050 1) 0 1024).1.length ≠ 1024 := by
  have hb : min (0 + 1024) ((List.replicate 2050 (1 : Nat)).length - 1) = 1024 := by
    rw [List.length_replicate]
    omega
  have hnt : ∀ i, i < 1024 →
      ¬((List.replicate 2050 (1 : Nat)).getD i 0 = 0 ∧
        (List.replicate 2050 (1 : Nat)).getD (i + 1) 0 = 0) := by
    intro i hi hc
    have h1 : (List.replicate 2050 (1 : Nat)).getD i 0 = 1 := by
      rw [List.getD_eq_getElem?_getD, List.getElem?_replicate, if_pos (by omega)]
      rfl
    rw [h1] at hc
    exact absurd hc.1 (by omega)
  have hscan : utf16ScanEnd (List.replicate 2050 1) 1024 0 = 1024 :=
    utf16ScanEnd_noterm (List.replicate 2050 1) 1024 hnt 512 0 (by omega)
  have hslice : pySlice (List.replicate 2050 (1 : Nat)) 0 1024 =
      List.replicate 1024 1 := by
    rw [pySlice, Nat.sub_zero, List.drop_zero, List.take_replicate]
    norm_num
  have hlen : (read_null_terminated_utf16 (List.replicate 2050 1) 0 1024).1.length = 512 := by
    unfold read_null_terminated_utf16
    simp only [hb, hscan, hslice]
    have h512 := toUtf16Units_replicate_one 512
    have h1024 : (2 : Nat) * 512 = 1024 := by norm_num
    rw [h1024] at h512
    exact h512
  exact ⟨hlen, by rw [hlen]; omega⟩

/-- C8: SID decoding renders the canonical dashed form — for revision 1,
two sub-authorities, big-endian authority 5 and little-endian sub-authorities
21 and 42 it returns "S-1-5-21-42" — and any input shorter than `8 + 4N`
bytes (with `N` its declared sub-authority count) yields no value at all. -/
theorem evt_c8_sid_parse :
    parse_sid [1, 2, 0, 0, 0, 0, 0, 5, 21, 0, 0, 0, 42, 0, 0, 0] =
      some "S-1-5-21-42" ∧
    (∀ data : List Nat, data.length < 8 + 4 * data.getD 1 0 →
      parse_sid data = none) := by
  constructor
  · decide
  · intro data h
    unfold parse_sid
    by_cases h8 : data.length < 8
    · rw [if_pos h8]
    · rw [if_neg h8]
      simp only []
      rw [if_pos (by omega)]

/-- Witness for C8: a 12-byte input that declares two sub-authorities but
carries only one is rejected outright. -/
theorem evt_c8_sid_parse_witness :
    ([1, 2, 0, 0, 0, 0, 0, 5, 21, 0, 0, 0] : List Nat).length <
      8 + 4 * ([1, 2, 0, 0, 0, 0, 0, 5, 21, 0, 0, 0] : List Nat).getD 1 0 ∧
    parse_sid [1, 2, 0, 0, 0, 0, 0, 5, 21, 0, 0, 0] = none :=
  ⟨by decide,
    evt_c8_sid_parse.2 [1, 2, 0, 0, 0, 0, 0, 5, 21, 0, 0, 0] (by decide)⟩

/-- The header decoded from `validHeader48`. -/
def hdr48 : EvtHeader :=
  { header_size := 48, signature := [76, 102, 76, 101], major_version := 1,
    minor_version := 0, start_offset := 48, end_offset := 0,
    current_record_number := 0, oldest_record_number := 0, max_size := 0,
    flags := 0, retention := 0, header_size_copy := 48 }

/-- The outcome of eagerly parsing `validHeader48`. -/
def r48 : ParseResult :=
  { header := hdr48, records := [], total_records := 0, valid_records := 0,
    parse_errors := 0, errors := [] }

/-- Eagerly parsing the bare valid header yields the empty outcome. -/
theorem parse_evt_file_validHeader48 : parse_evt_file validHeader48 = Except.ok r48 := by
  have hph : parse_header validHeader48 = Except.ok hdr48 := by rfl
  have heval := parse_evt_file_ok validHeader48 hdr48 (by decide) hph
  have hstop : parseLoop validHeader48 hdr48.start_offset [] [] 0 = ([], 0, []) :=
    parseLoop_exit _ _ _ _ _ (by decide)
  rw [heval, hstop]
  rfl

/-- Witness for C1 on the concrete empty log `validHeader48`. -/
theorem evt_c1_success_invariant_witness :
    r48.valid_records = r48.records.length ∧ r48.valid_records ≤ r48.total_records ∧
      (r48.success = true ↔ 0 < r48.valid_records ∨ r48.total_records = 0) :=
  evt_c1_success_invariant validHeader48 r48 parse_evt_file_validHeader48

/-- Witness for C10 on the concrete empty log `validHeader48`. -/
theorem evt_c10_start_offset_safe_witness :
    r48.records = [] ∧ r48.total_records = 0 ∧ r48.errors = [] ∧ r48.success = true :=
  (evt_c10_start_offset_safe validHeader48 (by decide) (by decide)).2 r48
    parse_evt_file_validHeader48 (by decide)

/-- A 12-byte span whose frame at offset 0 has a matching magic but declared
size 0. -/
def w2buf : List Nat := [0, 0, 0, 0, 76, 102, 76, 101, 0, 0, 0, 0]

/-- Witness for C2 at offset 0 of `w2buf`. -/
theorem evt_c2_invalid_size_witness :
    0 + 8 < w2buf.length ∧
    pySlice w2buf (0 + 4) (0 + 8) = EVT_SIGNATURE ∧
    (fromLE (pySlice w2buf 0 (0 + 4)) < 56 ∨ 65536 < fromLE (pySlice w2buf 0 (0 + 4))) ∧
    parseLoop w2buf 0 [] [] 0 =
      parseLoop w2buf (0 + 4) []
        ([] ++ ["Invalid record size at offset " ++ toString 0 ++ ": " ++
          toString (fromLE (pySlice w2buf 0 (0 + 4)))]) (0 + 1) :=
  ⟨by decide, by decide, by decide,
    evt_c2_invalid_size w2buf 0 [] [] 0 (by decide) (by decide) (by decide)⟩

/-- A 12-byte span of zero bytes: no record magic anywhere. -/
def w3buf : List Nat := [0, 0, 0, 0, 0, 0, 0, 0, 0, 0, 0, 0]

/-- Witness for C3 at offset 0 of `w3buf` (no magic found: clean end). -/
theorem evt_c3_resync_skip_witness :
    0 + 8 < w3buf.length ∧
    pySlice w3buf (0 + 4) (0 + 8) ≠ eofSig4 ∧
    pySlice w3buf (0 + 4) (0 + 8) ≠ EVT_SIGNATURE ∧
    findSub w3buf EVT_SIGNATURE (0 + 4) = none ∧
    parseLoop w3buf 0 [] [] 0 = ([], 0, []) :=
  ⟨by decide, by decide, by decide, by decide,
    (evt_c3_resync_skip w3buf 0 [] [] 0 (by decide) (by decide) (by decide)).2
      (by decide)⟩

/-- A 12-byte span whose frame at offset 0 declares size 56 and so extends
past the end of the buffer. -/
def w4buf : List Nat := [56, 0, 0, 0, 76, 102, 76, 101, 0, 0, 0, 0]

/-- Witness for C4 at offset 0 of `w4buf`. -/
theorem evt_c4_overflow_stops_witness :
    0 + 8 < w4buf.length ∧
    pySlice w4buf (0 + 4) (0 + 8) = EVT_SIGNATURE ∧
    (56 ≤ fromLE (pySlice w4buf 0 (0 + 4)) ∧ fromLE (pySlice w4buf 0 (0 + 4)) ≤ 65536) ∧
    w4buf.length < 0 + fromLE (pySlice w4buf 0 (0 + 4)) ∧
    parseLoop w4buf 0 [] [] 0 =
      ([], 0 + 1, [] ++ ["Record extends past end of file at offset " ++ toString 0]) :=
  ⟨by decide, by decide, by decide, by decide,
    evt_c4_overflow_stops w4buf 0 [] [] 0 (by decide) (by decide) (by decide)
      (by decide)⟩

/-- A dirty-style log: valid header, then a 40-byte EOF record whose 16-byte
pattern starts at position 52, with current record number 7 and oldest 3. -/
def w5buf : List Nat :=
  validHeader48 ++ [40, 0, 0, 0] ++ EVT_EOF_SIGNATURE ++
  [48, 0, 0, 0, 92, 0, 0, 0, 7, 0, 0, 0, 3, 0, 0, 0, 40, 0, 0, 0]

/-- Witness for C5 on `w5buf` (EOF pattern at 52). -/
theorem evt_c5_repair_witness :
    findSub w5buf EVT_EOF_SIGNATURE 0 = some 52 ∧
    fromLE (pySlice (repair_dirty_evt w5buf) 36 40) &&& 1 = 0 ∧
    (fromLE (pySlice (repair_dirty_evt w5buf) 20 24) = 52 + 36 ∧
      fromLE (pySlice (repair_dirty_evt w5buf) 24 28) =
        fromLE (pySlice w5buf (52 + 24) (52 + 28)) ∧
      fromLE (pySlice (repair_dirty_evt w5buf) 28 32) =
        fromLE (pySlice w5buf (52 + 28) (52 + 32))) :=
  ⟨by decide,
    (evt_c5_repair w5buf (by decide) (by decide)).1.2,
    (evt_c5_repair w5buf (by decide) (by decide)).2 52 (by decide) (by decide)⟩

/-- Witness for C7 on the "abc" bytes: the position scanned first is not a
terminator, discharged through the concrete scan result. -/
theorem evt_c7_utf16_scan_witness :
    ¬(abcUtf16.getD 0 0 = 0 ∧ abcUtf16.getD (0 + 1) 0 = 0) := by
  have h := evt_c7_utf16_scan
  exact h.2.2 abcUtf16 0 0 (by decide) (by rw [h.1]; decide) (by decide)
